import Mathlib

/-!
Shallow embedding of the Diagnostic-Tool repository's source registry
(`src/ocr_handler/source_manager.py`) and its external-service adapters
(`src/ocr_handler/ocr_handler.py`, `src/audio_processing/audio_handler.py`,
`src/audio_processing/diagnosis_generation.py`,
`src/chatbot_handler/chatbot_handler.py`).

Modelling conventions:
- `st.session_state.sources` (a Python list of dicts) becomes an explicit
  `List Source` threaded through every operation.
- `datetime.now()` becomes an explicit `Nat`-valued clock argument `now`;
  the formatted timestamp strings are represented by those clock values.
- Python `str.split()` (split on whitespace runs, dropping empty pieces)
  is `pySplit`.
- Exception-raising upstream calls (HTTP requests, SDK calls) become an
  explicit outcome argument describing what the upstream did; the adapter
  body is the total function the Python `try/except` structure defines on
  those outcomes.
-/

namespace SourceManager

/-- The `status` field of a source record: the code only ever writes
`"pending"` and `"confirmed"`; `"discarded"` is named in a comment in
`add_source` but discarding is implemented as deletion. -/
inductive Status where
  | pending
  | confirmed
  | discarded
  deriving DecidableEq, Repr

/-- One source record, as built by `add_source` in
`src/ocr_handler/source_manager.py`. `created_at` and `confirmed_at` hold
clock values standing for the formatted timestamp strings. -/
@[ext] structure Source where
  id : Nat
  type_ : String
  filename : String
  raw_text : String
  edited_text : String
  status : Status
  created_at : Nat
  confirmed_at : Option Nat
  metadata : List (String × String)
  word_count : Nat
  deriving DecidableEq, Repr

/-- Python `s.split()`: split on whitespace, discarding empty pieces. -/
def pySplit (s : String) : List String :=
  (s.split Char.isWhitespace).filter (fun w => w ≠ "")

/-- `add_source(source_type, filename, raw_text, metadata)`: appends a new
pending record whose id is the current length of the list, and returns
`(new state, returned id)`.  `word_count` is
`len(raw_text.split()) if raw_text else 0`. -/
def add_source (l : List Source) (source_type filename raw_text : String)
    (metadata : Option (List (String × String))) (now : Nat) :
    List Source × Nat :=
  let s : Source :=
    { id := l.length
      type_ := source_type
      filename := filename
      raw_text := raw_text
      edited_text := raw_text
      status := .pending
      created_at := now
      confirmed_at := none
      metadata := metadata.getD []
      word_count := if raw_text = "" then 0 else (pySplit raw_text).length }
  (l ++ [s], s.id)

/-- A Python `for`-loop that mutates the first element satisfying `p` and
then `break`s: shared shape of `update_source_text` and `confirm_source`. -/
def updateFirst {α : Type} (p : α → Bool) (f : α → α) : List α → List α
  | [] => []
  | a :: as => if p a then f a :: as else a :: updateFirst p f as

/-- `get_source_by_id(source_id)`: first record with that id, else `None`. -/
def get_source_by_id (l : List Source) (source_id : Nat) : Option Source :=
  l.find? (fun s => s.id = source_id)

/-- `update_source_text(source_id, new_text)`: overwrite `edited_text` of the
first record with that id and recompute its `word_count`. -/
def update_source_text (l : List Source) (source_id : Nat) (new_text : String) :
    List Source :=
  updateFirst (fun s => s.id = source_id)
    (fun s => { s with edited_text := new_text
                       word_count := (pySplit new_text).length }) l

/-- `confirm_source(source_id)`: set the first record with that id to
`confirmed` and stamp `confirmed_at` with the current time. -/
def confirm_source (l : List Source) (source_id : Nat) (now : Nat) :
    List Source :=
  updateFirst (fun s => s.id = source_id)
    (fun s => { s with status := .confirmed, confirmed_at := some now }) l

/-- `discard_source(source_id)`: keep exactly the records whose id differs. -/
def discard_source (l : List Source) (source_id : Nat) : List Source :=
  l.filter (fun s => s.id ≠ source_id)

/-- `get_all_sources()`. -/
def get_all_sources (l : List Source) : List Source := l

/-- `get_pending_sources()`. -/
def get_pending_sources (l : List Source) : List Source :=
  l.filter (fun s => s.status = Status.pending)

/-- `get_confirmed_sources()`. -/
def get_confirmed_sources (l : List Source) : List Source :=
  l.filter (fun s => s.status = Status.confirmed)

/-- `all_sources_confirmed()`: `False` on the empty registry, otherwise
`all(s["status"] == "confirmed" for s in sources)`. -/
def all_sources_confirmed (l : List Source) : Bool :=
  if l.isEmpty then false
  else l.all (fun s => s.status = Status.confirmed)

/-- The line `'='*60` used as a delimiter in `get_combined_text`. -/
def eqLine : String := String.mk (List.replicate 60 '=')

/-- The strings appended to `combined` for one confirmed source inside the
loop of `get_combined_text`. -/
def sourceLines (s : Source) : List String :=
  ["\n" ++ eqLine,
   "SOURCE: " ++ s.filename ++ " (" ++ s.type_.toUpper ++ ")",
   eqLine ++ "\n",
   s.edited_text,
   "\n"]

/-- `get_combined_text()`: empty string when no record is confirmed, else the
loop building `combined` followed by `"\n".join(combined)`. -/
def get_combined_text (l : List Source) : String :=
  let confirmed := get_confirmed_sources l
  if confirmed.isEmpty then ""
  else
    let combined := confirmed.foldl (fun acc s => acc ++ sourceLines s) []
    String.intercalate "\n" combined

/-- The `by_type` sub-dictionary of `get_source_summary`. -/
structure ByType where
  ocr : Nat
  audio : Nat
  manual : Nat
  deriving DecidableEq, Repr

/-- The dictionary returned by `get_source_summary`. -/
structure Summary where
  total_sources : Nat
  confirmed : Nat
  pending : Nat
  total_words : Nat
  by_type : ByType
  deriving DecidableEq, Repr

/-- `get_source_summary()`: aggregate counts; `total_words` and `by_type` are
computed over the confirmed records only. -/
def get_source_summary (l : List Source) : Summary :=
  let confirmed := get_confirmed_sources l
  let pending := get_pending_sources l
  { total_sources := l.length
    confirmed := confirmed.length
    pending := pending.length
    total_words := (confirmed.map (fun s => s.word_count)).sum
    by_type :=
      { ocr := (confirmed.filter (fun s => s.type_ = "ocr")).length
        audio := (confirmed.filter (fun s => s.type_ = "audio")).length
        manual := (confirmed.filter (fun s => s.type_ = "manual")).length } }

/-- `bulk_confirm_all()`: one timestamp is taken before the loop, and every
currently-pending record is confirmed with that shared stamp. -/
def bulk_confirm_all (l : List Source) (now : Nat) : List Source :=
  l.map (fun s =>
    if s.status = Status.pending then
      { s with status := .confirmed, confirmed_at := some now }
    else s)

/-- One user-level registry operation, for reachability statements over
sequences of `add`, `confirm` and `discard`. -/
inductive Op where
  | add (source_type filename raw_text : String)
      (metadata : Option (List (String × String))) (now : Nat)
  | confirm (source_id : Nat) (now : Nat)
  | discard (source_id : Nat)
  deriving DecidableEq, Repr

/-- Whether an operation is a `discard`. -/
def Op.isDiscard : Op → Bool
  | .discard _ => true
  | _ => false

/-- Apply one operation to a registry state. -/
def applyOp (l : List Source) : Op → List Source
  | .add ty fn raw md now => (add_source l ty fn raw md now).1
  | .confirm i now => confirm_source l i now
  | .discard i => discard_source l i

/-- The registry state reached from the empty registry by a sequence of
operations. -/
def run (ops : List Op) : List Source :=
  ops.foldl applyOp []

/-- A concrete record as `add_source [] "ocr" "a.png" "hello" none 0`
builds it, with the given status and confirmation stamp; used to
instantiate theorems on concrete registries. -/
def exSource (st : Status) (ca : Option Nat) : Source :=
  { id := 0
    type_ := "ocr"
    filename := "a.png"
    raw_text := "hello"
    edited_text := "hello"
    status := st
    created_at := 0
    confirmed_at := ca
    metadata := []
    word_count := 1 }

end SourceManager

namespace Adapters

/-- What the upstream HTTP call in `extract_text_from_image` does:
`requests.post` + `raise_for_status` + response parsing, abstracted as the
outcome the `try/except` chain distinguishes. -/
inductive RequestOutcome where
  | ok (content : String)
  | httpError (code : Nat) (body : String)
  | timeout
  | exn (msg : String)
  deriving DecidableEq, Repr

/-- The dictionary returned by `extract_text_from_image` in
`src/ocr_handler/ocr_handler.py`.  `file_size_kb` is only present on
success; its two-decimal rounding of `size/1024` is represented by the
raw byte size. -/
structure OcrResult where
  filename : String
  extracted_text : Option String
  status : String
  error : Option String
  word_count : Nat
  file_size_kb : Option Nat
  deriving DecidableEq, Repr

/-- `extract_text_from_image(image_file, api_key, prompt)`: `encode` is the
result of `encode_image_to_base64` (`None` when encoding raised; note the
code also treats an empty base64 string as falsy), `req` the outcome of the
API call.  The fixed medical OCR prompt only feeds the request payload and
does not affect the returned structure, so it is not carried here. -/
def extract_text_from_image (filename : String) (file_size : Nat)
    (encode : Option String) (req : RequestOutcome) : OcrResult :=
  match encode with
  | none =>
      { filename := filename, extracted_text := none, status := "failed"
        error := some "Image encoding failed", word_count := 0
        file_size_kb := none }
  | some b64 =>
      if b64 = "" then
        { filename := filename, extracted_text := none, status := "failed"
          error := some "Image encoding failed", word_count := 0
          file_size_kb := none }
      else
        match req with
        | .ok content =>
            { filename := filename, extracted_text := some content
              status := "success", error := none
              word_count := (SourceManager.pySplit content).length
              file_size_kb := some (file_size / 1024) }
        | .httpError code body =>
            { filename := filename, extracted_text := none, status := "failed"
              error := some ("API Error: " ++ toString code ++ " - " ++ body)
              word_count := 0, file_size_kb := none }
        | .timeout =>
            { filename := filename, extracted_text := none, status := "failed"
              error := some "Request timeout - image might be too large"
              word_count := 0, file_size_kb := none }
        | .exn msg =>
            { filename := filename, extracted_text := none, status := "failed"
              error := some msg, word_count := 0, file_size_kb := none }

/-- Outcome of an OpenAI SDK call: the text it returned, or the message of
the exception it raised. -/
inductive CallOutcome where
  | success (text : String)
  | failure (msg : String)
  deriving DecidableEq, Repr

/-- `transcribe_audio(audio_file)` in `src/audio_processing/audio_handler.py`:
returns the transcript string, or `None` after `st.error(...)` when any
exception was raised (client setup, temp file handling, or the Whisper
call — all inside the one `try`). -/
def transcribe_audio (call : CallOutcome) : Option String :=
  match call with
  | .success t => some t
  | .failure _ => none

/-- `generate_diagnosis_from_transcript(transcript)` in
`src/audio_processing/diagnosis_generation.py`: returns the model's report
text, or `None` after `st.error(...)` on any exception.  The transcript is
interpolated into the fixed clinical-template prompt, which only feeds the
request and does not affect the shape of the return value. -/
def generate_diagnosis_from_transcript (transcript : String)
    (call : CallOutcome) : Option String :=
  match transcript, call with
  | _, .success t => some t
  | _, .failure _ => none

/-- `generate_chat_response(user_message, current_diagnosis, source_data)` in
`src/chatbot_handler/chatbot_handler.py`: returns the model's reply, or an
apology string embedding the exception text. -/
def generate_chat_response (call : CallOutcome) : String :=
  match call with
  | .success t => t
  | .failure msg =>
      "❌ Error generating response: " ++ msg ++
        "\n\nPlease try rephrasing your question."

end Adapters

namespace SourceManager

theorem mem_updateFirst {α : Type} {p : α → Bool} {f : α → α} {l : List α}
    {s : α} (h : s ∈ updateFirst p f l) : s ∈ l ∨ ∃ t, t ∈ l ∧ s = f t := by
  induction l with
  | nil => simp [updateFirst] at h
  | cons a as ih =>
    by_cases hp : p a
    · simp only [updateFirst, if_pos hp] at h
      rcases List.mem_cons.mp h with h1 | h1
      · exact Or.inr ⟨a, List.mem_cons_self a as, h1⟩
      · exact Or.inl (List.mem_cons_of_mem a h1)
    · simp only [updateFirst, if_neg hp] at h
      rcases List.mem_cons.mp h with h1 | h1
      · exact Or.inl (h1 ▸ List.mem_cons_self a as)
      · rcases ih h1 with h2 | ⟨t, ht, hst⟩
        · exact Or.inl (List.mem_cons_of_mem a h2)
        · exact Or.inr ⟨t, List.mem_cons_of_mem a ht, hst⟩

theorem length_updateFirst {α : Type} (p : α → Bool) (f : α → α)
    (l : List α) : (updateFirst p f l).length = l.length := by
  induction l with
  | nil => rfl
  | cons a as ih =>
    by_cases hp : p a
    · simp [updateFirst, if_pos hp]
    · simp [updateFirst, if_neg hp, ih]

theorem map_updateFirst {α β : Type} (p : α → Bool) (f : α → α) (g : α → β)
    (hg : ∀ a, g (f a) = g a) (l : List α) :
    (updateFirst p f l).map g = l.map g := by
  induction l with
  | nil => rfl
  | cons a as ih =>
    by_cases hp : p a
    · simp [updateFirst, if_pos hp, hg]
    · simp [updateFirst, if_neg hp, ih]

theorem foldl_ids_range (ops : List Op) (l : List Source)
    (hops : ∀ op ∈ ops, op.isDiscard = false)
    (h : l.map (fun s => s.id) = List.range l.length) :
    (ops.foldl applyOp l).map (fun s => s.id) =
      List.range (ops.foldl applyOp l).length := by
  induction ops generalizing l with
  | nil => simpa using h
  | cons op ops ih =>
    simp only [List.foldl_cons]
    apply ih _ fun o ho => hops o (List.mem_cons_of_mem _ ho)
    cases op with
    | add ty fn raw md now =>
      simp only [applyOp, add_source, List.map_append, List.length_append,
        List.map_cons, List.map_nil, List.length_cons, List.length_nil,
        Nat.add_zero, List.range_succ, h]
    | confirm i now =>
      simp only [applyOp, confirm_source]
      have hm := map_updateFirst (fun s : Source => decide (s.id = i))
        (fun s : Source => { s with status := Status.confirmed,
                                    confirmed_at := some now })
        (fun s : Source => s.id) (fun a => rfl) l
      rw [hm, length_updateFirst]
      exact h
    | discard i =>
      have hd := hops _ (List.mem_cons_self _ _)
      simp [Op.isDiscard] at hd

theorem foldl_append_eq_join {α β : Type} (g : α → List β) (l : List α)
    (acc : List β) :
    l.foldl (fun acc s => acc ++ g s) acc = acc ++ (l.map g).flatten := by
  induction l generalizing acc with
  | nil => simp
  | cons a as ih => simp [ih, List.append_assoc]

theorem get_confirmed_sources_idem (l : List Source) :
    get_confirmed_sources (get_confirmed_sources l) =
      get_confirmed_sources l := by
  simp [get_confirmed_sources, List.filter_filter]

theorem get_combined_text_eq_join (l : List Source) :
    get_combined_text l =
      String.intercalate "\n"
        (((get_confirmed_sources l).map sourceLines).flatten) := by
  unfold get_combined_text
  cases hc : get_confirmed_sources l with
  | nil => simp [String.intercalate]
  | cons a as =>
    simp only [List.isEmpty_cons, Bool.false_eq_true, if_false]
    rw [foldl_append_eq_join]
    simp

theorem all_sources_confirmed_iff (l : List Source) :
    all_sources_confirmed l = true ↔
      l ≠ [] ∧ ∀ s ∈ l, s.status = Status.confirmed := by
  unfold all_sources_confirmed
  cases l with
  | nil => simp
  | cons a as => simp [List.all_eq_true]

theorem foldl_status_live (ops : List Op) (l : List Source)
    (h : ∀ s ∈ l, s.status = Status.pending ∨ s.status = Status.confirmed) :
    ∀ s ∈ ops.foldl applyOp l,
      s.status = Status.pending ∨ s.status = Status.confirmed := by
  induction ops generalizing l with
  | nil => simpa using h
  | cons op ops ih =>
    simp only [List.foldl_cons]
    apply ih
    intro s hs
    cases op with
    | add ty fn raw md now =>
      simp only [applyOp, add_source] at hs
      rcases List.mem_append.mp hs with h1 | h1
      · exact h s h1
      · simp only [List.mem_singleton] at h1
        subst h1
        exact Or.inl rfl
    | confirm i now =>
      simp only [applyOp, confirm_source] at hs
      rcases mem_updateFirst hs with h1 | ⟨t, _, rfl⟩
      · exact h s h1
      · exact Or.inr rfl
    | discard i =>
      simp only [applyOp, discard_source] at hs
      exact h s (List.mem_of_mem_filter hs)

theorem run_status_live (ops : List Op) :
    ∀ s ∈ run ops,
      s.status = Status.pending ∨ s.status = Status.confirmed :=
  foldl_status_live ops [] (by simp)

end SourceManager

open SourceManager Adapters

/-- C1: for every registry state reachable by a sequence of `add`, `confirm`
and `discard` operations from the empty registry, `all_sources_confirmed`
returns true iff the registry is non-empty and no remaining record has
status `pending`; and, on such states, "no record pending" is equivalent to
"every record confirmed". -/
theorem C1_all_confirmed_iff_nonempty_no_pending (ops : List Op) :
    (all_sources_confirmed (run ops) = true ↔
      run ops ≠ [] ∧ ∀ s ∈ run ops, s.status ≠ Status.pending) ∧
    ((∀ s ∈ run ops, s.status ≠ Status.pending) ↔
      ∀ s ∈ run ops, s.status = Status.confirmed) := by
  have hlive := run_status_live ops
  have hequiv : (∀ s ∈ run ops, s.status ≠ Status.pending) ↔
      (∀ s ∈ run ops, s.status = Status.confirmed) := by
    constructor
    · intro hnp s hs
      rcases hlive s hs with h1 | h1
      · exact absurd h1 (hnp s hs)
      · exact h1
    · intro hc s hs
      rw [hc s hs]
      decide
  refine ⟨?_, hequiv⟩
  rw [all_sources_confirmed_iff]
  exact and_congr_right fun _ => hequiv.symm

/-- C2 counterexample: ids are reused after a discard.  In the session
`add` (returns 0), `add` (returns 1), `discard 0`, the next `add` returns 1
— the id of a record previously created in the session, which is moreover
still present in the registry at that moment. -/
theorem C2_counterexample_id_reused_after_discard :
    (add_source (discard_source
        (add_source (add_source [] "ocr" "a.png" "hello" none 0).1
          "ocr" "b.png" "world" none 1).1 0)
      "ocr" "c.png" "again" none 2).2 = 1 ∧
    (get_source_by_id (discard_source
        (add_source (add_source [] "ocr" "a.png" "hello" none 0).1
          "ocr" "b.png" "world" none 1).1 0) 1).isSome = true := by
  exact ⟨rfl, rfl⟩

/-- C2 amended: `add_source` assigns `id = length of the registry`, so as
long as no `discard` occurs the ids are exactly `0, …, n-1` in insertion
order and every `add` returns a fresh id distinct from the id of every
record previously created in the session; after a `discard`, an id can be
reused. -/
theorem C2_amended_ids_fresh_without_discard (ops : List Op)
    (h : ∀ op ∈ ops, op.isDiscard = false) :
    (run ops).map (fun s => s.id) = List.range (run ops).length ∧
    ∀ ty fn raw md now,
      (add_source (run ops) ty fn raw md now).2 ∉
        (run ops).map (fun s => s.id) := by
  have hr := foldl_ids_range ops [] h (by simp)
  refine ⟨hr, ?_⟩
  intro ty fn raw md now
  simp only [run]
  rw [hr]
  simp [add_source]

/-- Witness for the amended C2 at the concrete session
`[add, confirm 0]`. -/
theorem C2_amended_witness :
    (∀ op ∈ [Op.add "ocr" "a.png" "hello" none 0, Op.confirm 0 1],
        op.isDiscard = false) ∧
    ((run [Op.add "ocr" "a.png" "hello" none 0, Op.confirm 0 1]).map
        (fun s => s.id) =
      List.range (run [Op.add "ocr" "a.png" "hello" none 0,
        Op.confirm 0 1]).length ∧
    ∀ ty fn raw md now,
      (add_source (run [Op.add "ocr" "a.png" "hello" none 0,
          Op.confirm 0 1]) ty fn raw md now).2 ∉
        (run [Op.add "ocr" "a.png" "hello" none 0,
          Op.confirm 0 1]).map (fun s => s.id)) :=
  ⟨by decide,
   C2_amended_ids_fresh_without_discard
     [Op.add "ocr" "a.png" "hello" none 0, Op.confirm 0 1] (by decide)⟩

/-- C3 counterexample: `confirm_source` is not idempotent on an
already-confirmed record.  On the registry holding one record confirmed at
time 5, confirming it again at time 7 re-stamps `confirmed_at` from 5 to 7,
so the record (and the registry) changes. -/
theorem C3_counterexample_confirm_restamps :
    (get_source_by_id (confirm_source
        (add_source [] "ocr" "a.png" "hello" none 0).1 0 5) 0).map
      Source.confirmed_at = some (some 5) ∧
    (get_source_by_id (confirm_source (confirm_source
        (add_source [] "ocr" "a.png" "hello" none 0).1 0 5) 0 7) 0).map
      Source.confirmed_at = some (some 7) ∧
    confirm_source
        (confirm_source (add_source [] "ocr" "a.png" "hello" none 0).1 0 5)
        0 7 ≠
      confirm_source (add_source [] "ocr" "a.png" "hello" none 0).1 0 5 := by
  refine ⟨rfl, rfl, ?_⟩
  decide

/-- C3 amended: confirming an already-confirmed record re-stamps its
`confirmed_at` with the current time but changes nothing else: the registry
decomposes as `l1 ++ s :: l2` with the earlier records not matching the id,
and only `s.confirmed_at` is replaced; in particular the call is a no-op
exactly when the current time equals the record's existing stamp. -/
theorem C3_amended_confirm_restamps_timestamp_only (l : List Source)
    (i now : Nat) (s : Source) (hfind : get_source_by_id l i = some s)
    (hc : s.status = Status.confirmed) :
    (∃ l1 l2, l = l1 ++ s :: l2 ∧ (∀ x ∈ l1, x.id ≠ i) ∧
        confirm_source l i now =
          l1 ++ { s with confirmed_at := some now } :: l2) ∧
    (s.confirmed_at = some now → confirm_source l i now = l) := by
  induction l with
  | nil => simp [get_source_by_id] at hfind
  | cons a as ih =>
    by_cases hp : a.id = i
    · have hsa : s = a := by
        simp [get_source_by_id, List.find?_cons, hp] at hfind
        exact hfind.symm
      subst hsa
      have hstep : confirm_source (s :: as) i now =
          { s with status := Status.confirmed,
                   confirmed_at := some now } :: as := by
        simp [confirm_source, updateFirst, hp]
      refine ⟨⟨[], as, rfl, by simp, ?_⟩, ?_⟩
      · rw [hstep, ← hc]
        rfl
      · intro hca
        rw [hstep, ← hc, ← hca]
    · have hfind' : get_source_by_id as i = some s := by
        simpa [get_source_by_id, List.find?_cons, hp] using hfind
      have hstep : confirm_source (a :: as) i now =
          a :: confirm_source as i now := by
        simp [confirm_source, updateFirst, hp]
      obtain ⟨⟨l1, l2, heq, hl1, hconf⟩, hidem⟩ := ih hfind'
      refine ⟨⟨a :: l1, l2, by rw [heq]; rfl, ?_, ?_⟩, ?_⟩
      · intro x hx
        rcases List.mem_cons.mp hx with hx1 | hx1
        · rw [hx1]; exact hp
        · exact hl1 x hx1
      · rw [hstep, hconf]
        rfl
      · intro hca
        rw [hstep, hidem hca]

/-- Witness for the amended C3: one record confirmed at time 5,
re-confirmed at time 7. -/
theorem C3_amended_witness :
    (get_source_by_id [exSource Status.confirmed (some 5)] 0 =
        some (exSource Status.confirmed (some 5)) ∧
      (exSource Status.confirmed (some 5)).status = Status.confirmed) ∧
    ((∃ l1 l2, [exSource Status.confirmed (some 5)] =
          l1 ++ exSource Status.confirmed (some 5) :: l2 ∧
        (∀ x ∈ l1, x.id ≠ 0) ∧
        confirm_source [exSource Status.confirmed (some 5)] 0 7 =
          l1 ++ { exSource Status.confirmed (some 5) with
                    confirmed_at := some 7 } :: l2) ∧
      ((exSource Status.confirmed (some 5)).confirmed_at = some 7 →
        confirm_source [exSource Status.confirmed (some 5)] 0 7 =
          [exSource Status.confirmed (some 5)])) :=
  ⟨⟨rfl, rfl⟩,
   C3_amended_confirm_restamps_timestamp_only
     [exSource Status.confirmed (some 5)] 0 7
     (exSource Status.confirmed (some 5)) rfl rfl⟩

/-- C4 counterexample: `add_source` does not fail silently when `raw_text`
is empty — on the empty registry it still appends a record, leaving a
registry of length 1 instead of an unchanged (empty) one. -/
theorem C4_counterexample_empty_text_still_added :
    (add_source [] "ocr" "f.png" "" none 0).1 ≠ [] ∧
    ((add_source [] "ocr" "f.png" "" none 0).1).length = 1 := by
  exact ⟨by decide, rfl⟩

/-- C4 amended: for every registry and empty `raw_text`, `add_source`
appends one new pending record with empty texts and `word_count` 0 (the
empty-input check is left to callers), returning its id. -/
theorem C4_amended_empty_text_appends_record (l : List Source)
    (ty fn : String) (md : Option (List (String × String))) (now : Nat) :
    (add_source l ty fn "" md now).1 =
      l ++ [{ id := l.length, type_ := ty, filename := fn, raw_text := "",
              edited_text := "", status := Status.pending, created_at := now,
              confirmed_at := none, metadata := md.getD [],
              word_count := 0 }] ∧
    (add_source l ty fn "" md now).2 = l.length := by
  exact ⟨by simp [add_source], rfl⟩

/-- C5: `get_combined_text` is exactly the `"\n"`-join of one header /
delimiter block per confirmed record — each block naming the record's
filename and upper-cased type and carrying its `edited_text` — taken in
original insertion order; it is the empty string when no record is
confirmed; and it is a function of the confirmed subsequence alone, so
pending (or removed) records contribute no text. -/
theorem C5_combined_text_one_block_per_confirmed (l : List Source) :
    get_combined_text l =
      String.intercalate "\n"
        (((get_confirmed_sources l).map sourceLines).flatten) ∧
    (get_confirmed_sources l = [] → get_combined_text l = "") ∧
    get_combined_text l = get_combined_text (get_confirmed_sources l) := by
  refine ⟨get_combined_text_eq_join l, ?_, ?_⟩
  · intro h
    rw [get_combined_text_eq_join, h]
    rfl
  · rw [get_combined_text_eq_join, get_combined_text_eq_join,
      get_confirmed_sources_idem]

/-- C6: `bulk_confirm_all` empties the pending set, moving every pending
record to `confirmed` with the one shared batch stamp while leaving
already-confirmed records (and their stamps) untouched, and a second call
is a no-op whatever its timestamp. -/
theorem C6_bulk_confirm_batch_stamp_idempotent (l : List Source)
    (t u : Nat) :
    get_pending_sources (bulk_confirm_all l t) = [] ∧
    (∀ s ∈ get_pending_sources l,
      { s with status := Status.confirmed, confirmed_at := some t } ∈
        bulk_confirm_all l t) ∧
    (∀ s ∈ get_confirmed_sources l, s ∈ bulk_confirm_all l t) ∧
    bulk_confirm_all (bulk_confirm_all l t) u = bulk_confirm_all l t := by
  refine ⟨?_, ?_, ?_, ?_⟩
  · rw [get_pending_sources, List.filter_eq_nil_iff]
    intro x hx
    simp only [bulk_confirm_all] at hx
    rcases List.mem_map.mp hx with ⟨s, _, rfl⟩
    by_cases hp : s.status = Status.pending <;> simp [hp]
  · intro s hs
    rw [get_pending_sources, List.mem_filter, decide_eq_true_eq] at hs
    obtain ⟨hsl, hsp⟩ := hs
    have hmem := List.mem_map_of_mem
      (fun s : Source =>
        if s.status = Status.pending then
          { s with status := Status.confirmed, confirmed_at := some t }
        else s) hsl
    simpa [bulk_confirm_all, hsp] using hmem
  · intro s hs
    rw [get_confirmed_sources, List.mem_filter, decide_eq_true_eq] at hs
    obtain ⟨hsl, hsc⟩ := hs
    have hmem := List.mem_map_of_mem
      (fun s : Source =>
        if s.status = Status.pending then
          { s with status := Status.confirmed, confirmed_at := some t }
        else s) hsl
    simpa [bulk_confirm_all, hsc] using hmem
  · simp only [bulk_confirm_all, List.map_map]
    apply List.map_congr_left
    intro s _
    by_cases hp : s.status = Status.pending <;> simp [Function.comp, hp]

/-- C7 counterexample: the transcription and diagnosis-generation adapters
do not return a structured `{status: success|failed, data|error}` result:
on an upstream failure they return bare `None`, and on success the bare
text, carrying no status field (only the OCR adapter builds the structured
dictionary). -/
theorem C7_counterexample_bare_results :
    transcribe_audio (CallOutcome.failure "connection reset") = none ∧
    transcribe_audio (CallOutcome.success "hello") = some "hello" ∧
    generate_diagnosis_from_transcript "t" (CallOutcome.failure "boom") =
      none := by
  exact ⟨rfl, rfl, rfl⟩

/-- C7 amended: every adapter catches upstream failures and returns a value
instead of raising — each is a total function of the upstream outcome,
including HTTP errors, timeouts and encoding failures — but only the OCR
adapter returns the structured `{status: success|failed, data|error}`
result; transcription and diagnosis generation return the bare text on
success and `None` on failure, and chat returns a bare reply string that
embeds the error text on failure. -/
theorem C7_amended_no_raise_only_ocr_structured (fname : String)
    (fsize : Nat) (enc : Option String) (req : RequestOutcome)
    (tr dg : CallOutcome) (transcript : String) :
    ((extract_text_from_image fname fsize enc req).status = "success" ∨
      (extract_text_from_image fname fsize enc req).status = "failed") ∧
    ((extract_text_from_image fname fsize enc req).status = "success" →
      (extract_text_from_image fname fsize enc req).error = none ∧
      (extract_text_from_image fname fsize enc req).extracted_text ≠ none) ∧
    ((extract_text_from_image fname fsize enc req).status = "failed" →
      (extract_text_from_image fname fsize enc req).extracted_text = none ∧
      (extract_text_from_image fname fsize enc req).error ≠ none) ∧
    ((transcribe_audio tr).isSome ↔ ∃ s, tr = CallOutcome.success s) ∧
    ((generate_diagnosis_from_transcript transcript dg).isSome ↔
      ∃ s, dg = CallOutcome.success s) ∧
    (∀ msg, generate_chat_response (CallOutcome.failure msg) =
      "❌ Error generating response: " ++ msg ++
        "\n\nPlease try rephrasing your question.") := by
  have htr : (transcribe_audio tr).isSome ↔
      ∃ s, tr = CallOutcome.success s := by
    rcases tr with s | m <;> simp [transcribe_audio]
  have hdg : (generate_diagnosis_from_transcript transcript dg).isSome ↔
      ∃ s, dg = CallOutcome.success s := by
    rcases dg with s | m <;> simp [generate_diagnosis_from_transcript]
  refine ⟨?_, ?_, ?_, htr, hdg, fun msg => rfl⟩ <;>
    rcases enc with _ | b64
  · simp [extract_text_from_image]
  · by_cases hb : b64 = "" <;>
      [skip; rcases req with c | cb | _ | m] <;>
      simp [extract_text_from_image, hb]
  · simp [extract_text_from_image]
  · by_cases hb : b64 = "" <;>
      [skip; rcases req with c | cb | _ | m] <;>
      simp [extract_text_from_image, hb]
  · simp [extract_text_from_image]
  · by_cases hb : b64 = "" <;>
      [skip; rcases req with c | cb | _ | m] <;>
      simp [extract_text_from_image, hb]

/-- C8: for a present id, `update_source_text` followed by
`get_source_by_id` yields the record with `edited_text` overwritten and
`word_count` recomputed as the word count of the new text (Python
`len(new_text.split())`), not of the original `raw_text`; for an absent id
it leaves the registry unchanged. -/
theorem C8_update_text_recomputes_word_count (l : List Source) (i : Nat)
    (t : String) :
    (∀ s0, get_source_by_id l i = some s0 →
      get_source_by_id (update_source_text l i t) i =
        some { s0 with edited_text := t,
                       word_count := (pySplit t).length }) ∧
    (get_source_by_id l i = none → update_source_text l i t = l) := by
  induction l with
  | nil =>
    exact ⟨fun s0 h => by simp [get_source_by_id] at h, fun _ => rfl⟩
  | cons a as ih =>
    by_cases hp : a.id = i
    · constructor
      · intro s0 h
        have hsa : s0 = a := by
          simp [get_source_by_id, List.find?_cons, hp] at h
          exact h.symm
        subst hsa
        simp [get_source_by_id, update_source_text, updateFirst,
          List.find?_cons, hp]
      · intro h
        simp [get_source_by_id, List.find?_cons, hp] at h
    · constructor
      · intro s0 h
        have h' : get_source_by_id as i = some s0 := by
          simpa [get_source_by_id, List.find?_cons, hp] using h
        have hrec := ih.1 s0 h'
        simp only [get_source_by_id, update_source_text, updateFirst,
          List.find?_cons, hp, decide_eq_true_eq] at hrec ⊢
        simpa [hp] using hrec
      · intro h
        have h' : get_source_by_id as i = none := by
          simpa [get_source_by_id, List.find?_cons, hp] using h
        have hrec := ih.2 h'
        simp only [update_source_text, updateFirst] at hrec ⊢
        simp [hp, hrec]

/-- C9: discarding an id removes every record with that id from the
registry, hence simultaneously from the all / pending / confirmed views
(each view commutes with the removal), whatever the records' statuses;
and `all_sources_confirmed` is thereafter the non-emptiness-and-all-
confirmed predicate over only the remaining records. -/
theorem C9_discard_removes_from_every_view (l : List Source) (i : Nat) :
    (∀ s ∈ get_all_sources (discard_source l i), s.id ≠ i) ∧
    get_pending_sources (discard_source l i) =
      (get_pending_sources l).filter (fun s => s.id ≠ i) ∧
    get_confirmed_sources (discard_source l i) =
      (get_confirmed_sources l).filter (fun s => s.id ≠ i) ∧
    (all_sources_confirmed (discard_source l i) = true ↔
      discard_source l i ≠ [] ∧
        ∀ s ∈ discard_source l i, s.status = Status.confirmed) := by
  refine ⟨?_, ?_, ?_, all_sources_confirmed_iff _⟩
  · intro s hs
    rw [get_all_sources, discard_source] at hs
    simpa using List.of_mem_filter hs
  · rw [get_pending_sources, get_pending_sources, discard_source,
      List.filter_comm]
  · rw [get_confirmed_sources, get_confirmed_sources, discard_source,
      List.filter_comm]

/-- C10: the `by_type` field of `get_source_summary` counts, per type, only
the records that are both confirmed and of that type; appending a pending
record changes neither `by_type` nor `total_words`, while it increments
`total_sources` (and the pending count). -/
theorem C10_by_type_counts_only_confirmed (l : List Source) (s : Source)
    (h : s.status = Status.pending) :
    (get_source_summary l).by_type.ocr =
      (l.filter (fun x =>
        x.status = Status.confirmed ∧ x.type_ = "ocr")).length ∧
    (get_source_summary l).by_type.audio =
      (l.filter (fun x =>
        x.status = Status.confirmed ∧ x.type_ = "audio")).length ∧
    (get_source_summary l).by_type.manual =
      (l.filter (fun x =>
        x.status = Status.confirmed ∧ x.type_ = "manual")).length ∧
    (get_source_summary (l ++ [s])).by_type =
      (get_source_summary l).by_type ∧
    (get_source_summary (l ++ [s])).total_words =
      (get_source_summary l).total_words ∧
    (get_source_summary (l ++ [s])).total_sources =
      (get_source_summary l).total_sources + 1 ∧
    (get_source_summary (l ++ [s])).pending =
      (get_source_summary l).pending + 1 := by
  refine ⟨?_, ?_, ?_, ?_, ?_, ?_, ?_⟩
  · simp [get_source_summary, get_confirmed_sources, List.filter_filter,
      Bool.and_comm]
  · simp [get_source_summary, get_confirmed_sources, List.filter_filter,
      Bool.and_comm]
  · simp [get_source_summary, get_confirmed_sources, List.filter_filter,
      Bool.and_comm]
  · simp [get_source_summary, get_confirmed_sources, List.filter_append, h]
  · simp [get_source_summary, get_confirmed_sources, List.filter_append, h]
  · simp [get_source_summary]
  · simp [get_source_summary, get_pending_sources, List.filter_append, h]

/-- Witness for C10 at the empty registry and a concrete pending record. -/
theorem C10_witness :
    (exSource Status.pending none).status = Status.pending ∧
    ((get_source_summary []).by_type.ocr =
      (([] : List Source).filter (fun x =>
        x.status = Status.confirmed ∧ x.type_ = "ocr")).length ∧
    (get_source_summary []).by_type.audio =
      (([] : List Source).filter (fun x =>
        x.status = Status.confirmed ∧ x.type_ = "audio")).length ∧
    (get_source_summary []).by_type.manual =
      (([] : List Source).filter (fun x =>
        x.status = Status.confirmed ∧ x.type_ = "manual")).length ∧
    (get_source_summary ([] ++ [exSource Status.pending none])).by_type =
      (get_source_summary []).by_type ∧
    (get_source_summary ([] ++ [exSource Status.pending none])).total_words =
      (get_source_summary []).total_words ∧
    (get_source_summary ([] ++ [exSource Status.pending none])).total_sources =
      (get_source_summary []).total_sources + 1 ∧
    (get_source_summary ([] ++ [exSource Status.pending none])).pending =
      (get_source_summary []).pending + 1) :=
  ⟨rfl, C10_by_type_counts_only_confirmed [] (exSource Status.pending none)
    rfl⟩
